import Mathlib

/-!
Verification of the RotaTimetable domain model (`rtt/library.py`).

The development shallowly embeds the Python classes `Role`, `Personnel`,
`Appliance`, `Vehicle`, `Rota` and `Station`.  Python dictionaries are
modelled as insertion-ordered association lists, Python object aliasing
(where it is observable) as an explicit heap of dictionary cells, and
fallible Python code as `Except`-valued functions.
-/

namespace RTT

/-! ## Python dictionaries as insertion-ordered association lists

`dictSet m k v` is `m[k] = v`: it replaces the value at an existing key in
place (keeping the key's position) and appends a fresh key at the end,
exactly like a CPython `dict`.  `dictMerge a b` is `{**a, **b}`. -/

def dictSet {α β : Type} [DecidableEq α] : List (α × β) → α → β → List (α × β)
  | [], k, v => [(k, v)]
  | (k', v') :: rest, k, v =>
      if k' = k then (k', v) :: rest else (k', v') :: dictSet rest k v

def dictGet? {α β : Type} [DecidableEq α] : List (α × β) → α → Option β
  | [], _ => none
  | (k', v') :: rest, k => if k' = k then some v' else dictGet? rest k

def dictMem {α β : Type} [DecidableEq α] (m : List (α × β)) (k : α) : Bool :=
  (dictGet? m k).isSome

def dictMerge {α β : Type} [DecidableEq α]
    (a b : List (α × β)) : List (α × β) :=
  b.foldl (fun acc p => dictSet acc p.1 p.2) a

def dictValues {α β : Type} (m : List (α × β)) : List β := m.map Prod.snd

/-- Well-formedness of a Python dict: keys are unique. -/
def DictWF {α β : Type} (m : List (α × β)) : Prop := (m.map Prod.fst).Nodup

/-- The first of two optional values that is present. -/
def firstSome {β : Type} : Option β → Option β → Option β
  | some v, _ => some v
  | none, o => o

theorem dictGet?_dictSet {α β : Type} [DecidableEq α]
    (m : List (α × β)) (k : α) (v : β) (k' : α) :
    dictGet? (dictSet m k v) k' = if k = k' then some v else dictGet? m k' := by
  induction m with
  | nil =>
      by_cases h : k = k' <;> simp [dictSet, dictGet?, h]
  | cons p rest ih =>
      obtain ⟨a, b⟩ := p
      by_cases h1 : a = k
      · subst h1
        by_cases h2 : a = k' <;> simp [dictSet, dictGet?, h2]
      · by_cases h2 : a = k'
        · subst h2
          have : ¬ k = a := fun h => h1 h.symm
          simp [dictSet, dictGet?, h1, this]
        · simp [dictSet, dictGet?, h1, h2, ih]

theorem dictGet?_none_of_not_mem {α β : Type} [DecidableEq α]
    (m : List (α × β)) (k : α) (h : k ∉ m.map Prod.fst) :
    dictGet? m k = none := by
  induction m with
  | nil => rfl
  | cons p rest ih =>
      simp only [List.map_cons, List.mem_cons] at h
      push_neg at h
      have h1 : ¬ p.1 = k := fun hp => h.1 hp.symm
      obtain ⟨a, b⟩ := p
      simpa [dictGet?, h1] using ih h.2

theorem dictGet?_dictMerge {α β : Type} [DecidableEq α]
    (a b : List (α × β)) (hb : DictWF b) (k : α) :
    dictGet? (dictMerge a b) k = firstSome (dictGet? b k) (dictGet? a k) := by
  induction b generalizing a with
  | nil => simp [dictMerge, dictGet?, firstSome]
  | cons p rest ih =>
      obtain ⟨k', v'⟩ := p
      simp only [DictWF, List.map_cons, List.nodup_cons] at hb
      obtain ⟨hk', hwf⟩ := hb
      have hm : dictMerge a ((k', v') :: rest) = dictMerge (dictSet a k' v') rest := rfl
      rw [hm, ih (dictSet a k' v') hwf]
      by_cases h : k' = k
      · subst h
        have hnone : dictGet? rest k' = none := dictGet?_none_of_not_mem _ _ hk'
        simp [dictGet?, hnone, dictGet?_dictSet, firstSome]
      · cases hq : dictGet? rest k <;>
          simp [dictGet?, hq, dictGet?_dictSet, h, firstSome]

/-! ## Role (`Role` class, `library.py` lines 17-148)

A `Role` holds its name, its own declared constraints
(`self._constraints`, a dict from Vehicle to boolean rule) and an optional
inherited parent Role.  Vehicles used as constraint keys are identified by
a numeric object identity.  The `constraints` property returns
`{**inherited.constraints, **own}` — the parent's effective constraints
overlaid by the role's own. -/

inductive RoleT : Type where
  | base : String → List (Nat × Bool) → RoleT
  | inh : String → List (Nat × Bool) → RoleT → RoleT

/-- `Role.role`: the role's name. -/
def RoleT.roleName : RoleT → String
  | .base n _ => n
  | .inh n _ _ => n

/-- `Role._constraints`: the role's own declared constraints. -/
def RoleT.own : RoleT → List (Nat × Bool)
  | .base _ o => o
  | .inh _ o _ => o

/-- The `Role.constraints` property (lines 63-73):
`{**self._inheritance.constraints, **self._constraints}` when inheriting,
else the own constraints. -/
def RoleT.constraints : RoleT → List (Nat × Bool)
  | .base _ o => o
  | .inh _ o p => dictMerge p.constraints o

/-- `Role.constraint(vehicle, rule)` (lines 108-111): updates the role's own
constraint dict with `{constraint: rule}`.  Only the receiver's own dict is
touched; the inherited parent is untouched. -/
def RoleT.setConstraint : RoleT → Nat → Bool → RoleT
  | .base n o, v, r => .base n (dictSet o v r)
  | .inh n o p, v, r => .inh n (dictSet o v r) p

/-! ## Personnel identity (`Personnel` class, lines 151-213)

`Personnel.id` is `hashlib.sha1(f"{self.name} @ {self.role}".encode()).hexdigest()[10:17]`,
recomputed from the current name and role name on every access.  SHA-1 is
implemented below over the UTF-8 bytes of the string, with 32-bit words as
`Nat` reduced modulo `2^32`. -/

def w32 (n : Nat) : Nat := n % 4294967296

def rotl (s n : Nat) : Nat := w32 (n * 2 ^ s) + n / 2 ^ (32 - s)

/-- UTF-8 encoding of a single code point, as `str.encode()` produces. -/
def utf8Bytes (c : Nat) : List Nat :=
  if c < 128 then [c]
  else if c < 2048 then [192 + c / 64, 128 + c % 64]
  else if c < 65536 then [224 + c / 4096, 128 + (c / 64) % 64, 128 + c % 64]
  else [240 + c / 262144, 128 + (c / 4096) % 64, 128 + (c / 64) % 64, 128 + c % 64]

def strBytes (s : String) : List Nat :=
  (s.data.map (fun c => utf8Bytes c.toNat)).flatten

/-- Big-endian 8-byte encoding of a bit length. -/
def be64 (n : Nat) : List Nat :=
  [n / 2 ^ 56 % 256, n / 2 ^ 48 % 256, n / 2 ^ 40 % 256, n / 2 ^ 32 % 256,
   n / 2 ^ 24 % 256, n / 2 ^ 16 % 256, n / 2 ^ 8 % 256, n % 256]

/-- SHA-1 message padding: a `0x80` byte, zeros up to 56 mod 64, then the
bit length as 8 big-endian bytes. -/
def padMsg (msg : List Nat) : List Nat :=
  let l := msg.length
  let z := (119 - l % 64) % 64
  msg ++ [128] ++ List.replicate z 0 ++ be64 (8 * l)

def toBlocksFuel : Nat → List Nat → List (List Nat)
  | 0, _ => []
  | _, [] => []
  | fuel + 1, a :: l => ((a :: l).take 64) :: toBlocksFuel fuel ((a :: l).drop 64)

/-- Split a byte list into 64-byte blocks.  The fuel `l.length` always
suffices: each step consumes a nonempty prefix. -/
def toBlocks (l : List Nat) : List (List Nat) := toBlocksFuel l.length l

/-- The `i`-th big-endian 32-bit word of a 64-byte block. -/
def be32At (b : List Nat) (i : Nat) : Nat :=
  b.getD (4 * i) 0 * 2 ^ 24 + b.getD (4 * i + 1) 0 * 2 ^ 16 +
    b.getD (4 * i + 2) 0 * 2 ^ 8 + b.getD (4 * i + 3) 0

/-- One step of the SHA-1 message-schedule extension: append
`rotl1 (w[n-3] xor w[n-8] xor w[n-14] xor w[n-16])`. -/
def extendStep (w : List Nat) : List Nat :=
  let n := w.length
  w ++ [rotl 1 (((w.getD (n - 3) 0) ^^^ (w.getD (n - 8) 0)) ^^^
                ((w.getD (n - 14) 0) ^^^ (w.getD (n - 16) 0)))]

def iterateFn {α : Type} (f : α → α) : Nat → α → α
  | 0, a => a
  | n + 1, a => iterateFn f n (f a)

def schedule (b : List Nat) : List Nat :=
  iterateFn extendStep 64 ((List.range 16).map (be32At b))

/-- The SHA-1 round function and constant for round `t`. -/
def fK (t b c d : Nat) : Nat × Nat :=
  if t < 20 then ((b &&& c) ||| ((b ^^^ 4294967295) &&& d), 1518500249)
  else if t < 40 then ((b ^^^ c) ^^^ d, 1859775393)
  else if t < 60 then ((b &&& c) ||| ((b &&& d) ||| (c &&& d)), 2400959708)
  else ((b ^^^ c) ^^^ d, 3395469782)

def sha1Round (st : Nat × Nat × Nat × Nat × Nat) (tw : Nat × Nat) :
    Nat × Nat × Nat × Nat × Nat :=
  let (a, b, c, d, e) := st
  let (f, k) := fK tw.1 b c d
  (w32 (rotl 5 a + f + e + k + tw.2), a, rotl 30 b, c, d)

def processBlock (h : Nat × Nat × Nat × Nat × Nat) (b : List Nat) :
    Nat × Nat × Nat × Nat × Nat :=
  let ws := schedule b
  let (a', b', c', d', e') :=
    ((List.range 80).zip ws).foldl sha1Round h
  (w32 (h.1 + a'), w32 (h.2.1 + b'), w32 (h.2.2.1 + c'),
   w32 (h.2.2.2.1 + d'), w32 (h.2.2.2.2 + e'))

def hexDigit (n : Nat) : Char :=
  if n < 10 then Char.ofNat (48 + n) else Char.ofNat (87 + n)

def toHex8 (n : Nat) : List Char :=
  [hexDigit (n / 2 ^ 28 % 16), hexDigit (n / 2 ^ 24 % 16),
   hexDigit (n / 2 ^ 20 % 16), hexDigit (n / 2 ^ 16 % 16),
   hexDigit (n / 2 ^ 12 % 16), hexDigit (n / 2 ^ 8 % 16),
   hexDigit (n / 2 ^ 4 % 16), hexDigit (n % 16)]

/-- `hashlib.sha1(msg).hexdigest()` over a byte list. -/
def sha1hex (msg : List Nat) : String :=
  let h := (toBlocks (padMsg msg)).foldl processBlock
    (1732584193, 4023233417, 2562383102, 271733878, 3285377520)
  ⟨toHex8 h.1 ++ toHex8 h.2.1 ++ toHex8 h.2.2.1 ++ toHex8 h.2.2.2.1 ++
    toHex8 h.2.2.2.2⟩

/-- A Personnel's observable identity state: its current name and the name
of its Role (`Personnel.__init__` stores `role.role` as `self.role`). -/
structure Pers where
  name : String
  roleName : String
deriving DecidableEq

/-- The `Personnel.id` property (lines 188-197):
`sha1(f"{name} @ {role}").hexdigest()[10:17]`. -/
def Pers.pid (p : Pers) : String :=
  ((sha1hex (strBytes (p.name ++ " @ " ++ p.roleName))).drop 10).take 7

/-- `Personnel.name` setter (lines 181-186): rename, keeping the role. -/
def Pers.rename (p : Pers) (newName : String) : Pers :=
  { p with name := newName }

/-! ## Appliance and Vehicle (`Appliance`, `Vehicle` classes, lines 216-430)

An Appliance's `_crew` attribute is a reference to a Python dict keyed by
Role objects (identified here by numeric ids) with integer counts.  Dict
objects live on an explicit heap `CrewHeap`, because `Vehicle.__init__`
stores the very dict object returned by the originating Appliance's `crew`
property, and the `crew` property rebinds `self._crew` to a freshly
allocated pruned dict on every read — the aliasing is observable, so it is
modelled.  `_limits` is a per-object two-element list, never shared between
objects (Vehicle construction unpacks it into two ints), so it is modelled
as two fields. -/

inductive PyErr : Type where
  | typeError
  | valueError
  | attributeError
  | keyError
deriving DecidableEq

abbrev CrewMap := List (Nat × Int)

structure CrewHeap where
  next : Nat
  mem : List (Nat × CrewMap)
deriving DecidableEq

/-- The dict object stored at reference `i`. -/
def heapAt (h : CrewHeap) (i : Nat) : CrewMap := (dictGet? h.mem i).getD []

def heapAlloc (h : CrewHeap) (m : CrewMap) : Nat × CrewHeap :=
  (h.next, ⟨h.next + 1, dictSet h.mem h.next m⟩)

def heapSet (h : CrewHeap) (r : Nat) (m : CrewMap) : CrewHeap :=
  ⟨h.next, dictSet h.mem r m⟩

structure Appl where
  appliance : String
  crewRef : Nat
  lmin : Int
  lmax : Int
deriving DecidableEq

/-- The pruning comprehension `{i: v for (i, v) in self._crew.items() if v}`
of the `crew` property: drops entries whose count is falsy (zero). -/
def pruneCrew (m : CrewMap) : CrewMap := m.filter (fun p => p.2 ≠ 0)

/-- `sum(crew.values())`. -/
def crewSum (m : CrewMap) : Int := (m.map Prod.snd).sum

/-- The `Appliance.crew` property (lines 275-278): allocates a fresh pruned
dict, rebinds `self._crew` to it and returns it. -/
def crewRead (h : CrewHeap) (a : Appl) : Nat × Appl × CrewHeap :=
  let r := (heapAlloc h (pruneCrew (heapAt h a.crewRef))).1
  let h' := (heapAlloc h (pruneCrew (heapAt h a.crewRef))).2
  (r, { a with crewRef := r }, h')

/-- The observable crew of an appliance: the contents the `crew` property
would return. -/
def obsCrew (h : CrewHeap) (a : Appl) : CrewMap := pruneCrew (heapAt h a.crewRef)

/-- `Appliance.__init__` (lines 226-247) in its statically typed form: the
caller passes an actual dict object (by reference) and actual ints, so the
`isinstance` checks are discharged by typing.  Checks `if not crew`
(ValueError), `maximum < minimum` (ValueError), then auto-raises the
maximum to `sum(crew.values())` and stores the crew dict reference
unchanged. -/
def applianceInit (h : CrewHeap) (name : String) (crewRef : Nat)
    (minimum maximum : Int) : Except PyErr (Appl × CrewHeap) :=
  if heapAt h crewRef = [] then .error .valueError
  else if maximum < minimum then .error .valueError
  else
    let s := crewSum (heapAt h crewRef)
    let maximum := if s ≤ maximum then maximum else s
    .ok ({ appliance := name, crewRef := crewRef, lmin := minimum,
           lmax := maximum }, h)

structure Veh where
  callsign : String
  plate : String
  active : Bool
  base : Appl
deriving DecidableEq

/-- `Vehicle.__init__` (lines 355-369):
`super().__init__(appliance.appliance, appliance.crew, *appliance.limits)`.
Reading `appliance.crew` rebinds the originating appliance's `_crew` to a
fresh pruned dict, whose reference the new Vehicle then stores — the
updated originating appliance is returned alongside the vehicle. -/
def vehicleInit (h : CrewHeap) (callsign : String) (ap : Appl)
    (plate : String) (active : Bool) :
    Except PyErr (Veh × Appl × CrewHeap) :=
  let rah := crewRead h ap
  match applianceInit rah.2.2 ap.appliance rah.1 ap.lmin ap.lmax with
  | .error e => .error e
  | .ok bh =>
      .ok ({ callsign := callsign, plate := plate, active := active,
             base := bh.1 }, rah.2.1, bh.2)

/-- The two leading `if minimum: ... / if maximum: ...` blocks of
`Appliance.change` (lines 308-315): a limit argument is applied only when
truthy (`None` and `0` are both skipped). -/
def applyLimits (a : Appl) (minimum maximum : Option Int) : Appl :=
  let a := match minimum with
    | some m => if m = 0 then a else { a with lmin := m }
    | none => a
  match maximum with
  | some m => if m = 0 then a else { a with lmax := m }
  | none => a

inductive ChangeArg : Type where
  | single : Nat → ChangeArg
  | dmap : CrewMap → ChangeArg

/-- The result of `Appliance.change`: the (possibly partially) mutated
object and heap are returned even when an exception is raised, exactly as
a Python exception leaves the receiver. -/
structure ChangeOut where
  err : Option PyErr
  a : Appl
  h : CrewHeap

/-- Lines 339-342 of `Appliance.change`: `crew = {**self.crew, **role}`
(the `crew` property read rebinds `self._crew` to a fresh pruned dict),
the overflow check against `self.limits[1]`, then
`self._crew.update(role)`. -/
def changeCommit (h : CrewHeap) (a : Appl) (roleMap : CrewMap) : ChangeOut :=
  let rah := crewRead h a
  let merged := dictMerge (heapAt rah.2.2 rah.1) roleMap
  if (rah.2.1).lmax < crewSum merged then ⟨some .valueError, rah.2.1, rah.2.2⟩
  else ⟨none, rah.2.1, heapSet rah.2.2 rah.1 merged⟩

/-- `Appliance.change` (lines 289-342), statically typed form: limits are
updated first, then a single-Role update requires a truthy `value`
(AttributeError otherwise), and the prospective merged crew is validated
against the (possibly just-updated) maximum before committing. -/
def change (h : CrewHeap) (a : Appl) (role : ChangeArg)
    (value minimum maximum : Option Int) : ChangeOut :=
  let a := applyLimits a minimum maximum
  match role with
  | .dmap m => changeCommit h a m
  | .single rid =>
      match value with
      | none => ⟨some .attributeError, a, h⟩
      | some v =>
          if v = 0 then ⟨some .attributeError, a, h⟩
          else changeCommit h a [(rid, v)]

theorem heapAt_dictSet (mem : List (Nat × CrewMap)) (nx : Nat) (m : CrewMap)
    (i : Nat) (hne : ¬ nx = i) :
    (dictGet? (dictSet mem nx m) i).getD [] = (dictGet? mem i).getD [] := by
  rw [dictGet?_dictSet]
  simp [hne]

/-- `changeCommit` writes only to the freshly allocated dict: every dict
reference older than the allocation frontier keeps its contents. -/
theorem changeCommit_heapAt_lt (h : CrewHeap) (a : Appl) (rm : CrewMap)
    (i : Nat) (hi : i < h.next) :
    heapAt (changeCommit h a rm).h i = heapAt h i := by
  have hne : ¬ h.next = i := by omega
  simp only [changeCommit, crewRead, heapAlloc, heapSet, heapAt]
  split <;> simp [heapAt_dictSet, hne]

/-- `change` writes only to the freshly allocated dict. -/
theorem change_heapAt_lt (h : CrewHeap) (a : Appl) (role : ChangeArg)
    (value minimum maximum : Option Int) (i : Nat) (hi : i < h.next) :
    heapAt (change h a role value minimum maximum).h i = heapAt h i := by
  unfold change
  cases role with
  | dmap m => exact changeCommit_heapAt_lt h _ m i hi
  | single rid =>
      cases value with
      | none => rfl
      | some v =>
          by_cases hv : v = 0
          · simp [hv]
          · simpa [hv] using changeCommit_heapAt_lt h (applyLimits a minimum maximum) [(rid, v)] i hi

/-- A successful `Vehicle.__init__` stores the freshly allocated pruned
dict reference in both the new Vehicle and the originating Appliance, bumps
the allocation frontier by one and leaves every older dict unchanged. -/
theorem vehicleInit_ok_spec (h : CrewHeap) (cs : String) (ap : Appl)
    (p : String) (act : Bool) (v : Veh) (a' : Appl) (h1 : CrewHeap)
    (hv : vehicleInit h cs ap p act = .ok (v, a', h1)) :
    v.base.crewRef = h.next ∧ a'.crewRef = h.next ∧ h1.next = h.next + 1 ∧
      (∀ i, i < h.next → heapAt h1 i = heapAt h i) := by
  simp only [vehicleInit] at hv
  rcases hq : applianceInit (crewRead h ap).2.2 ap.appliance (crewRead h ap).1
      ap.lmin ap.lmax with e | bh
  · rw [hq] at hv
    exact absurd hv (by simp)
  · rw [hq] at hv
    obtain ⟨b1, b2⟩ := bh
    simp only [Except.ok.injEq, Prod.mk.injEq] at hv
    obtain ⟨hveq, haeq, hheq⟩ := hv
    simp only [applianceInit] at hq
    split at hq
    · exact absurd hq (by simp)
    · split at hq
      · exact absurd hq (by simp)
      · simp only [Except.ok.injEq, Prod.mk.injEq] at hq
        obtain ⟨hb1, hb2⟩ := hq
        refine ⟨?_, ?_, ?_, ?_⟩
        · rw [← hveq, ← hb1]
          simp [crewRead, heapAlloc]
        · rw [← haeq]
          simp [crewRead, heapAlloc]
        · rw [← hheq, ← hb2]
          simp [crewRead, heapAlloc]
        · intro i hi
          have hne : ¬ h.next = i := by omega
          rw [← hheq, ← hb2]
          simp [crewRead, heapAlloc, heapAt, heapAt_dictSet, hne]

theorem pruneCrew_idem (m : CrewMap) : pruneCrew (pruneCrew m) = pruneCrew m := by
  simp [pruneCrew, List.filter_filter]

theorem applyLimits_crewRef (a : Appl) (mn mx : Option Int) :
    (applyLimits a mn mx).crewRef = a.crewRef := by
  unfold applyLimits
  cases mn <;> cases mx <;> dsimp only <;> (try rfl) <;> split_ifs <;> rfl

theorem applyLimits_lmin_none (a : Appl) (mx : Option Int) :
    (applyLimits a none mx).lmin = a.lmin := by
  unfold applyLimits
  cases mx <;> dsimp only <;> (try rfl) <;> split_ifs <;> rfl

theorem applyLimits_lmax_none (a : Appl) (mn : Option Int) :
    (applyLimits a mn none).lmax = a.lmax := by
  unfold applyLimits
  cases mn <;> dsimp only <;> (try rfl) <;> split_ifs <;> rfl

/-- Characterization of `changeCommit`: the mutated appliance holds the
fresh dict reference with its limits untouched; the overflow error is
raised exactly when the merged prospective crew exceeds `limits[1]`, and
in that case the freshly (re)bound crew dict holds exactly the pruned old
contents — the update was not applied. -/
theorem changeCommit_spec (h : CrewHeap) (a : Appl) (rm : CrewMap) :
    (changeCommit h a rm).a.crewRef = h.next ∧
    (changeCommit h a rm).a.lmin = a.lmin ∧
    (changeCommit h a rm).a.lmax = a.lmax ∧
    ((changeCommit h a rm).err = some PyErr.valueError ↔
      a.lmax < crewSum (dictMerge (pruneCrew (heapAt h a.crewRef)) rm)) ∧
    ((changeCommit h a rm).err = some PyErr.valueError →
      heapAt (changeCommit h a rm).h h.next = pruneCrew (heapAt h a.crewRef)) := by
  have hat : heapAt
      ⟨h.next + 1, dictSet h.mem h.next (pruneCrew (heapAt h a.crewRef))⟩
      h.next = pruneCrew (heapAt h a.crewRef) := by
    simp [heapAt, dictGet?_dictSet]
  simp only [changeCommit, crewRead, heapAlloc]
  split
  · refine ⟨rfl, rfl, rfl, ?_, fun _ => hat⟩
    simp only [hat] at *
    simp_all
  · refine ⟨rfl, rfl, rfl, ?_, fun hc => by simp at hc⟩
    simp only [hat] at *
    simp_all

/-- C2: after creating Vehicles v1 and v2 from the same Appliance, mutating
any one of the three objects' crew through `change` leaves the observable
crew (the result of the `crew` property) of the other two unchanged;
limits are per-object fields and are never shared.  The two vehicle
constructions are threaded: creating v2 uses the appliance as updated by
v1's construction, as in Python. -/
theorem vehicle_copy_isolation
    (h : CrewHeap) (ap : Appl)
    (cs1 p1 : String) (act1 : Bool) (cs2 p2 : String) (act2 : Bool)
    (v1 : Veh) (a1 : Appl) (h1 : CrewHeap)
    (hv1 : vehicleInit h cs1 ap p1 act1 = .ok (v1, a1, h1))
    (v2 : Veh) (a2 : Appl) (h2 : CrewHeap)
    (hv2 : vehicleInit h1 cs2 a1 p2 act2 = .ok (v2, a2, h2)) :
    (∀ role value mn mx,
        obsCrew (change h2 v1.base role value mn mx).h a2 = obsCrew h2 a2 ∧
        obsCrew (change h2 v1.base role value mn mx).h v2.base
          = obsCrew h2 v2.base) ∧
    (∀ role value mn mx,
        obsCrew (change h2 v2.base role value mn mx).h v1.base
          = obsCrew h2 v1.base ∧
        obsCrew (change h2 v2.base role value mn mx).h a2 = obsCrew h2 a2) ∧
    (∀ role value mn mx,
        obsCrew (change h2 a2 role value mn mx).h v1.base
          = obsCrew h2 v1.base ∧
        obsCrew (change h2 a2 role value mn mx).h v2.base
          = obsCrew h2 v2.base) := by
  obtain ⟨hr1, ha1, hn1, hf1⟩ := vehicleInit_ok_spec h cs1 ap p1 act1 v1 a1 h1 hv1
  obtain ⟨hr2, ha2, hn2, hf2⟩ := vehicleInit_ok_spec h1 cs2 a1 p2 act2 v2 a2 h2 hv2
  have key : ∀ (b x : Appl), x.crewRef < h2.next →
      ∀ role value mn mx,
        obsCrew (change h2 b role value mn mx).h x = obsCrew h2 x := by
    intro b x hx role value mn mx
    unfold obsCrew
    rw [change_heapAt_lt h2 b role value mn mx x.crewRef hx]
  have l1 : v1.base.crewRef < h2.next := by omega
  have l2 : a2.crewRef < h2.next := by omega
  have l3 : v2.base.crewRef < h2.next := by omega
  exact ⟨fun r v mn mx => ⟨key _ _ l2 r v mn mx, key _ _ l3 r v mn mx⟩,
    fun r v mn mx => ⟨key _ _ l1 r v mn mx, key _ _ l2 r v mn mx⟩,
    fun r v mn mx => ⟨key _ _ l1 r v mn mx, key _ _ l3 r v mn mx⟩⟩

def hW : CrewHeap := ⟨1, [(0, [(0, 1)])]⟩

def apW : Appl := ⟨"PL", 0, 1, 2⟩

def v1W : Veh := ⟨"PL551", "p1", true, ⟨"PL", 1, 1, 2⟩⟩

def a1W : Appl := ⟨"PL", 1, 1, 2⟩

def h1W : CrewHeap := ⟨2, [(0, [(0, 1)]), (1, [(0, 1)])]⟩

def v2W : Veh := ⟨"PL552", "p2", true, ⟨"PL", 2, 1, 2⟩⟩

def a2W : Appl := ⟨"PL", 2, 1, 2⟩

def h2W : CrewHeap := ⟨3, [(0, [(0, 1)]), (1, [(0, 1)]), (2, [(0, 1)])]⟩

/-- Witness for `vehicle_copy_isolation`: two concrete vehicles from one
appliance, then a `change` on the first vehicle. -/
theorem vehicle_copy_isolation_witness :
    obsCrew (change h2W v1W.base (.single 1) (some 1) none none).h a2W
        = obsCrew h2W a2W ∧
    obsCrew (change h2W v1W.base (.single 1) (some 1) none none).h v2W.base
        = obsCrew h2W v2W.base :=
  (vehicle_copy_isolation hW apW "PL551" "p1" true "PL552" "p2" true
      v1W a1W h1W rfl v2W a2W h2W rfl).1
    (.single 1) (some 1) none none

def c5h : CrewHeap := ⟨1, [(0, [(0, 1)])]⟩

def c5a : Appl := ⟨"A", 0, 1, 2⟩

/-- C5 counterexample: `change` updates the limits before validating the
prospective crew, so a call that passes `maximum=3` and overflows raises
ValueError with the maximum already changed from 2 to 3 — the limits are
not "exactly as they were before the call".  The appliance is itself a
legal product of `Appliance.__init__`. -/
theorem appliance_change_partial_mutation :
    applianceInit c5h "A" 0 1 2 = .ok (c5a, c5h) ∧
    (change c5h c5a (.single 1) (some 5) none (some 3)).err
        = some PyErr.valueError ∧
    (change c5h c5a (.single 1) (some 5) none (some 3)).a.lmax = 3 ∧
    c5a.lmax = 2 := by
  refine ⟨rfl, by decide, by decide, by decide⟩

/-- C5 (amended): an overflowing `change` call raises ValueError and leaves
the observable crew unchanged, and the error is raised exactly when the
prospective merged crew exceeds the (possibly just-updated) maximum; but
minimum/maximum arguments passed to the same call are applied before the
validation and are not rolled back — limits are unchanged only when the
call passed none. -/
theorem appliance_change_overflow_aborts
    (h : CrewHeap) (a : Appl) (role : ChangeArg)
    (value minimum maximum : Option Int)
    (herr : (change h a role value minimum maximum).err
        = some PyErr.valueError) :
    obsCrew (change h a role value minimum maximum).h
        (change h a role value minimum maximum).a = obsCrew h a ∧
    (minimum = none →
        (change h a role value minimum maximum).a.lmin = a.lmin) ∧
    (maximum = none →
        (change h a role value minimum maximum).a.lmax = a.lmax) ∧
    (∀ m, role = .dmap m →
        ((change h a role value minimum maximum).err = some PyErr.valueError ↔
          (applyLimits a minimum maximum).lmax
            < crewSum (dictMerge (obsCrew h a) m))) := by
  have main : ∀ rm, (changeCommit h (applyLimits a minimum maximum) rm).err
        = some PyErr.valueError →
      obsCrew (changeCommit h (applyLimits a minimum maximum) rm).h
          (changeCommit h (applyLimits a minimum maximum) rm).a
        = obsCrew h a ∧
      (minimum = none →
        (changeCommit h (applyLimits a minimum maximum) rm).a.lmin = a.lmin) ∧
      (maximum = none →
        (changeCommit h (applyLimits a minimum maximum) rm).a.lmax = a.lmax) := by
    intro rm herr'
    obtain ⟨hcr, hmn, hmx, hiff, hcontents⟩ :=
      changeCommit_spec h (applyLimits a minimum maximum) rm
    refine ⟨?_, ?_, ?_⟩
    · unfold obsCrew
      rw [hcr, hcontents herr', applyLimits_crewRef, pruneCrew_idem]
    · intro hnone; subst hnone; rw [hmn, applyLimits_lmin_none]
    · intro hnone; subst hnone; rw [hmx, applyLimits_lmax_none]
  cases role with
  | dmap m =>
      have herr' : (changeCommit h (applyLimits a minimum maximum) m).err
          = some PyErr.valueError := herr
      obtain ⟨hiso, hmn, hmx⟩ := main m herr'
      refine ⟨hiso, hmn, hmx, ?_⟩
      rintro m' rfl'
      obtain ⟨_, _, _, hiff, _⟩ :=
        changeCommit_spec h (applyLimits a minimum maximum) m'
      injection rfl' with hm
      subst hm
      rw [show (change h a (.dmap m) value minimum maximum)
            = changeCommit h (applyLimits a minimum maximum) m from rfl]
      rw [applyLimits_crewRef] at hiff
      exact hiff
  | single rid =>
      cases value with
      | none => exact absurd herr (by simp [change])
      | some v =>
          by_cases hv : v = 0
          · subst hv
            exact absurd herr (by simp [change])
          · have herr' : (changeCommit h (applyLimits a minimum maximum)
                [(rid, v)]).err = some PyErr.valueError := by
              simpa [change, hv] using herr
            obtain ⟨hiso, hmn, hmx⟩ := main [(rid, v)] herr'
            have hch : change h a (.single rid) (some v) minimum maximum
                = changeCommit h (applyLimits a minimum maximum) [(rid, v)] := by
              simp [change, hv]
            rw [hch]
            exact ⟨hiso, hmn, hmx, fun m' hm' => by cases hm'⟩

/-- Witness for `appliance_change_overflow_aborts`: the concrete
overflowing call of the counterexample leaves the observable crew intact. -/
theorem appliance_change_overflow_aborts_witness :
    obsCrew (change c5h c5a (.single 1) (some 5) none (some 3)).h
        (change c5h c5a (.single 1) (some 5) none (some 3)).a
      = obsCrew c5h c5a ∧
    (change c5h c5a (.single 1) (some 5) none (some 3)).a.lmin = c5a.lmin :=
  ⟨(appliance_change_overflow_aborts c5h c5a (.single 1) (some 5) none (some 3)
      (by decide)).1,
   (appliance_change_overflow_aborts c5h c5a (.single 1) (some 5) none (some 3)
      (by decide)).2.1 rfl⟩

/-! ## Dynamically typed `Appliance.__init__` (lines 226-247)

The constructor's validation depends on Python's dynamic typing: `crew`
may be any value (only falsiness and `isinstance(crew, dict)` are
checked — the keys and values of the dict are never validated), and
`minimum`/`maximum` are `isinstance(..., int)`-checked.  `sum(crew.values())`
folds `0 + v` left to right and raises TypeError at the first non-integer
value. -/

inductive PyVal : Type where
  | vint : Int → PyVal
  | vstr : String → PyVal
  | vrole : Nat → PyVal
  | vdict : List (PyVal × PyVal) → PyVal
  | vlist : List PyVal → PyVal
  | vnone : PyVal

/-- Python truthiness. -/
def pyTruthy : PyVal → Bool
  | .vint n => n != 0
  | .vstr s => s != ""
  | .vrole _ => true
  | .vdict xs => !xs.isEmpty
  | .vlist xs => !xs.isEmpty
  | .vnone => false

def PyVal.isDict : PyVal → Bool
  | .vdict _ => true
  | _ => false

/-- `sum(...)`: left fold starting at the integer accumulator, raising
TypeError at the first non-integer element. -/
def pySum : Int → List PyVal → Except PyErr Int
  | acc, [] => .ok acc
  | acc, .vint n :: rest => pySum (acc + n) rest
  | _, _ :: _ => .error .typeError

structure ApplDyn where
  appliance : PyVal
  crew : List (PyVal × PyVal)
  lmin : Int
  lmax : Int

/-- `Appliance.__init__` (lines 226-247) over dynamic values, check for
check: `if not crew` (ValueError), `elif not isinstance(crew, dict)`
(TypeError), non-int minimum/maximum (TypeError), `maximum < minimum`
(ValueError), then the auto-raise of `maximum` to `sum(crew.values())`.
No validation of the dict's keys or values is performed beyond the
incidental summation. -/
def applianceInitDyn (name crew minimum maximum : PyVal) :
    Except PyErr ApplDyn :=
  if pyTruthy crew = false then .error .valueError
  else match crew with
    | .vdict entries =>
        match minimum, maximum with
        | .vint mn, .vint mx =>
            if mx < mn then .error .valueError
            else match pySum 0 (dictValues entries) with
              | .error e => .error e
              | .ok s => .ok ⟨name, entries, mn, if s ≤ mx then mx else s⟩
        | _, _ => .error .typeError
    | _ => .error .typeError

/-- C6 counterexample: a crew dict that is not a Role→int mapping (its key
is the string "x") is accepted without any TypeKind error — the
constructor never validates the crew's keys. -/
theorem appliance_init_no_key_validation :
    applianceInitDyn (.vstr "A") (.vdict [(.vstr "x", .vint 2)])
        (.vint 1) (.vint 1)
      = .ok ⟨.vstr "A", [(.vstr "x", .vint 2)], 1, 2⟩ := rfl

/-- C6 (amended): construction fails with ValueKind when crew is falsy
(in particular when it is the empty mapping), with TypeKind when crew is
truthy but not a dict, with TypeKind when minimum or maximum is not an
integer, and with ValueKind when maximum < minimum; crew keys and values
are not validated (non-integer values only fail incidentally at the
summation); on success the stored maximum is at least the crew sum,
auto-raised when the declared maximum was too low. -/
theorem appliance_init_checks :
    (∀ name crew minimum maximum, pyTruthy crew = false →
        applianceInitDyn name crew minimum maximum
          = .error PyErr.valueError) ∧
    (∀ name crew minimum maximum,
        pyTruthy crew = true → crew.isDict = false →
        applianceInitDyn name crew minimum maximum
          = .error PyErr.typeError) ∧
    (∀ name entries minimum maximum,
        pyTruthy (PyVal.vdict entries) = true →
        (∀ mn mx, ¬ (minimum = PyVal.vint mn ∧ maximum = PyVal.vint mx)) →
        applianceInitDyn name (.vdict entries) minimum maximum
          = .error PyErr.typeError) ∧
    (∀ name entries mn mx,
        pyTruthy (PyVal.vdict entries) = true → mx < mn →
        applianceInitDyn name (.vdict entries) (.vint mn) (.vint mx)
          = .error PyErr.valueError) ∧
    (∀ name crew mn mx a,
        applianceInitDyn name crew (.vint mn) (.vint mx) = .ok a →
        ∃ entries s, crew = .vdict entries ∧
          pySum 0 (dictValues entries) = .ok s ∧
          a.crew = entries ∧ a.lmin = mn ∧ s ≤ a.lmax ∧
          a.lmax = if s ≤ mx then mx else s) := by
  refine ⟨?_, ?_, ?_, ?_, ?_⟩
  · intro name crew minimum maximum ht
    unfold applianceInitDyn
    rw [ht]
    rfl
  · intro name crew minimum maximum ht hd
    unfold applianceInitDyn
    rw [ht]
    cases crew <;> simp_all [PyVal.isDict]
  · intro name entries minimum maximum ht hno
    unfold applianceInitDyn
    rw [ht]
    cases minimum <;> cases maximum <;> try rfl
    case vint.vint mn mx => exact absurd ⟨rfl, rfl⟩ (hno mn mx)
  · intro name entries mn mx ht hlt
    unfold applianceInitDyn
    rw [ht]
    simp [hlt]
  · intro name crew mn mx a hok
    cases crew
    case vint n => exact absurd hok (by unfold applianceInitDyn; split <;> simp)
    case vstr s => exact absurd hok (by unfold applianceInitDyn; split <;> simp)
    case vrole r => exact absurd hok (by unfold applianceInitDyn; split <;> simp)
    case vlist xs => exact absurd hok (by unfold applianceInitDyn; split <;> simp)
    case vnone => exact absurd hok (by unfold applianceInitDyn; split <;> simp)
    case vdict entries =>
      unfold applianceInitDyn at hok
      split at hok
      · exact absurd hok (by simp)
      · dsimp only at hok
        split at hok
        · exact absurd hok (by simp)
        · rcases hs : pySum 0 (dictValues entries) with e | s
          · rw [hs] at hok
            exact absurd hok (by simp)
          · rw [hs] at hok
            simp only [Except.ok.injEq] at hok
            refine ⟨entries, s, rfl, hs, ?_, ?_, ?_, ?_⟩ <;> rw [← hok] <;>
              try rfl
            by_cases hc : s ≤ mx
            · simp [hc]
            · simp [hc]

/-- Witness for `appliance_init_checks`: empty crew dict yields ValueError,
via the first clause. -/
theorem appliance_init_checks_witness :
    applianceInitDyn (.vstr "A") (.vdict []) (.vint 1) (.vint 1)
      = .error PyErr.valueError :=
  appliance_init_checks.1 (.vstr "A") (.vdict []) (.vint 1) (.vint 1) rfl

/-! ## Rota (`Rota` class and `safeLoad`, lines 433-625)

A Rota's `_personnel` attribute is `{}` (a dict) right after construction,
but `_load` (line 625) assigns it `data['personnel']`, which `_save`
(lines 614-615) wrote as `list(self.personnel.values())` — a LIST.  Both
shapes occur in reachable states, so the field is a sum.  Personnel are
the `Pers` values of the identity section; pickling round-trips them by
value.  File selection (`fileName`/`rootDir`/`.rt` extension) is not
modelled: the single backing file is the `file` slot. -/

set_option maxRecDepth 100000

inductive PersonnelField : Type where
  | pdict : List (String × Pers) → PersonnelField
  | plist : List Pers → PersonnelField
deriving DecidableEq

structure SavedRota where
  rota : String
  personnel : List Pers
deriving DecidableEq

structure RotaSt where
  rota : String
  personnelF : PersonnelField
  file : Option SavedRota
deriving DecidableEq

/-- The dict comprehension `{i.id: i for i in self._personnel}` over a
list: successive keyed insertions. -/
def idMapFrom (acc : List (String × Pers)) : List Pers → List (String × Pers)
  | [] => acc
  | p :: rest => idMapFrom (dictSet acc p.pid p) rest

def idMap (xs : List Pers) : List (String × Pers) := idMapFrom [] xs

/-- The `Rota.personnel` property (lines 476-478):
`{i.id: i for i in self._personnel}`.  Iterating a dict yields its string
keys, and a string has no `.id` attribute, so the property raises
AttributeError whenever `_personnel` is a non-empty dict. -/
def personnelOf : PersonnelField → Except PyErr (List (String × Pers))
  | .plist xs => .ok (idMap xs)
  | .pdict [] => .ok []
  | .pdict (_ :: _) => .error .attributeError

/-- `Rota._save` (lines 608-615): pickles `self()` =
`{'rota': self.rota, 'personnel': list(self.personnel.values())}`. -/
def rotaSave (s : RotaSt) : Except PyErr RotaSt := do
  let pm ← personnelOf s.personnelF
  .ok { s with file := some ⟨s.rota, dictValues pm⟩ }

/-- `Rota._load` (lines 617-625): creates the file via `_save` when it does
not exist, else assigns `self.rota, self._personnel = data['rota'],
data['personnel']` — note `data['personnel']` is the pickled LIST. -/
def rotaLoad (s : RotaSt) : Except PyErr RotaSt :=
  match s.file with
  | none => rotaSave s
  | some d => .ok { s with rota := d.rota, personnelF := .plist d.personnel }

/-- `Rota.__init__` (lines 454-474): `self._personnel = {}` then
`self._load()`. -/
def rotaInit (rota : String) (file : Option SavedRota) : Except PyErr RotaSt :=
  rotaLoad { rota := rota, personnelF := .pdict [], file := file }

/-- `Rota.add(personnel)` for a single Personnel (lines 548-573 calling
`self + other`): the `safeLoad` wrapper `runFunction` (lines 438-443) runs
`self._load()`, the `__add__` Personnel branch (lines 507-510), then
`self._save()`.  `runFunction` does not return the wrapped function's
result, so the returned value is always `None` (modelled as the `none` in
the result pair).  The `__add__` branch calls `self._personnel.update(...)`
for a fresh id; after `_load`, `_personnel` is a list, which has no
`update` attribute — AttributeError. -/
def rotaAdd (s : RotaSt) (p : Pers) : Except PyErr (Option Pers × RotaSt) := do
  let s ← rotaLoad s
  let pm ← personnelOf s.personnelF
  let s ←
    if (dictGet? pm p.pid).isSome then .ok s
    else
      match s.personnelF with
      | .pdict m => .ok { s with personnelF := .pdict (dictSet m p.pid p) }
      | .plist _ => .error .attributeError
  let s ← rotaSave s
  .ok (none, s)

theorem dictSet_not_mem {α β : Type} [DecidableEq α]
    (m : List (α × β)) (k : α) (v : β) (h : k ∉ m.map Prod.fst) :
    dictSet m k v = m ++ [(k, v)] := by
  induction m with
  | nil => rfl
  | cons q rest ih =>
      simp only [List.map_cons, List.mem_cons] at h
      push_neg at h
      obtain ⟨a, b⟩ := q
      have h1 : ¬ a = k := fun hp => h.1 hp.symm
      simp [dictSet, h1, ih h.2]

theorem mem_keys_dictSet {α β : Type} [DecidableEq α]
    (m : List (α × β)) (k : α) (v : β) (x : α)
    (hx : x ∈ (dictSet m k v).map Prod.fst) :
    x = k ∨ x ∈ m.map Prod.fst := by
  induction m with
  | nil => simpa [dictSet] using hx
  | cons q rest ih =>
      obtain ⟨a, b⟩ := q
      by_cases ha : a = k
      · subst ha
        simpa [dictSet] using hx
      · simp only [dictSet, ha, if_false, List.map_cons, List.mem_cons] at hx
        rcases hx with hx | hx
        · exact Or.inr (by simp [hx])
        · rcases ih hx with h | h
          · exact Or.inl h
          · exact Or.inr (by simp [h])

theorem dictWF_dictSet {α β : Type} [DecidableEq α]
    (m : List (α × β)) (k : α) (v : β) (h : DictWF m) :
    DictWF (dictSet m k v) := by
  induction m with
  | nil => simp [dictSet, DictWF]
  | cons q rest ih =>
      obtain ⟨a, b⟩ := q
      by_cases hak : a = k
      · subst hak
        simp only [dictSet, if_pos rfl]
        simpa [DictWF] using h
      · simp only [DictWF, List.map_cons, List.nodup_cons] at h
        obtain ⟨ha, hrest⟩ := h
        have ihw := ih hrest
        simp only [dictSet, hak, if_false]
        simp only [DictWF, List.map_cons, List.nodup_cons]
        refine ⟨?_, ihw⟩
        intro hmem
        rcases mem_keys_dictSet rest k v a hmem with h | h
        · exact hak h
        · exact ha h

theorem mem_dictSet {α β : Type} [DecidableEq α]
    (m : List (α × β)) (k : α) (v : β) (q : α × β)
    (hq : q ∈ dictSet m k v) : q = (k, v) ∨ q ∈ m := by
  induction m with
  | nil => simpa [dictSet] using hq
  | cons a rest ih =>
      obtain ⟨a0, b0⟩ := a
      by_cases h : a0 = k
      · subst h
        rw [show dictSet ((a0, b0) :: rest) a0 v = (a0, v) :: rest from by
              simp [dictSet]] at hq
        rcases List.mem_cons.mp hq with hq1 | hq1
        · left; exact hq1
        · right; exact List.mem_cons_of_mem _ hq1
      · rw [show dictSet ((a0, b0) :: rest) k v
              = (a0, b0) :: dictSet rest k v from by simp [dictSet, h]] at hq
        rcases List.mem_cons.mp hq with hq1 | hq1
        · right; simp [hq1]
        · rcases ih hq1 with h2 | h2
          · left; exact h2
          · right; exact List.mem_cons_of_mem _ h2

theorem idMapFrom_wf (acc : List (String × Pers)) (xs : List Pers)
    (h : DictWF acc) : DictWF (idMapFrom acc xs) := by
  induction xs generalizing acc with
  | nil => exact h
  | cons p rest ih => exact ih _ (dictWF_dictSet _ _ _ h)

theorem idMapFrom_keyed (acc : List (String × Pers)) (xs : List Pers)
    (h : ∀ q ∈ acc, q.1 = q.2.pid) :
    ∀ q ∈ idMapFrom acc xs, q.1 = q.2.pid := by
  induction xs generalizing acc with
  | nil => exact h
  | cons p rest ih =>
      refine ih _ ?_
      intro q hq
      rcases mem_dictSet acc p.pid p q hq with h2 | h2
      · simp [h2]
      · exact h q h2

/-- Rebuilding the id-keyed dict from the values of a well-formed id-keyed
dict reproduces it. -/
theorem idMapFrom_dictValues (m acc : List (String × Pers))
    (hwf : DictWF (acc ++ m)) (hk : ∀ q ∈ m, q.1 = q.2.pid) :
    idMapFrom acc (dictValues m) = acc ++ m := by
  induction m generalizing acc with
  | nil => simp [idMapFrom, dictValues]
  | cons q rest ih =>
      obtain ⟨k, v⟩ := q
      have hkv : k = v.pid := hk (k, v) (List.mem_cons_self _ _)
      have hnotacc : k ∉ acc.map Prod.fst := by
        simp only [DictWF, List.map_append, List.map_cons,
          List.nodup_append] at hwf
        intro hmem
        exact hwf.2.2 hmem (by simp)
      have step : dictSet acc v.pid v = acc ++ [(k, v)] := by
        rw [← hkv]
        exact dictSet_not_mem acc k v hnotacc
      show idMapFrom (dictSet acc v.pid v) (dictValues rest) = acc ++ (k, v) :: rest
      rw [step]
      have hwf' : DictWF ((acc ++ [(k, v)]) ++ rest) := by
        simpa using hwf
      have := ih (acc ++ [(k, v)]) hwf'
        (fun r hr => hk r (List.mem_cons_of_mem _ hr))
      simpa using this

theorem idMap_roundtrip (xs : List Pers) :
    idMap (dictValues (idMap xs)) = idMap xs := by
  have hwf : DictWF (idMap xs) := idMapFrom_wf [] xs (by simp [DictWF])
  have hk : ∀ q ∈ idMap xs, q.1 = q.2.pid :=
    idMapFrom_keyed [] xs (by simp)
  simpa using idMapFrom_dictValues (idMap xs) [] (by simpa using hwf) hk

/-- C3: persisting a Rota whose `_personnel` holds the personnel list and
constructing a new Rota from the same backing file yields a Rota whose
`personnel` mapping is identical to the original: same ids (keys), same
names and roles (the `Pers` values).  Every reachable Rota state whose
`personnel` property succeeds carries its personnel as a list. -/
theorem rota_roundtrip (r r2 : String) (xs : List Pers) (f : Option SavedRota) :
    rotaSave ⟨r, .plist xs, f⟩
        = .ok ⟨r, .plist xs, some ⟨r, dictValues (idMap xs)⟩⟩ ∧
    rotaInit r2 (some ⟨r, dictValues (idMap xs)⟩)
        = .ok ⟨r, .plist (dictValues (idMap xs)),
               some ⟨r, dictValues (idMap xs)⟩⟩ ∧
    personnelOf (PersonnelField.plist (dictValues (idMap xs)))
        = personnelOf (PersonnelField.plist xs) := by
  refine ⟨rfl, rfl, ?_⟩
  show Except.ok (idMap (dictValues (idMap xs))) = Except.ok (idMap xs)
  rw [idMap_roundtrip]

/-- C4: `Rota.add` on a freshly constructed Rota raises AttributeError for
any genuinely new Personnel — `_save` persists the personnel as a list,
`_load` reads that list back into `_personnel`, and the `__add__` body then
calls `.update` on it, which lists do not have; and even where the body
completes (re-adding an existing id), the `safeLoad` wrapper discards the
body's return value, so `add` returns `None` rather than the item added. -/
theorem rota_add_broken :
    rotaInit "1" none = .ok ⟨"1", .pdict [], some ⟨"1", []⟩⟩ ∧
    rotaAdd ⟨"1", .pdict [], some ⟨"1", []⟩⟩ ⟨"Alice", "FF"⟩
        = .error PyErr.attributeError ∧
    rotaAdd ⟨"1", .pdict [], some ⟨"1", [⟨"Alice", "FF"⟩]⟩⟩ ⟨"Alice", "FF"⟩
        = .ok (none, ⟨"1", .plist [⟨"Alice", "FF"⟩],
               some ⟨"1", [⟨"Alice", "FF"⟩]⟩⟩) := by
  refine ⟨rfl, rfl, ?_⟩
  rfl

set_option maxRecDepth 100000

/-! ## Station (`Station` class, lines 628-1068)

`Station.__init__` (line 654) executes
`self._roles = self._appliances = self._vehicles = self._rotas = {}`:
all four registry attributes are bound to ONE dict object.  The model
keeps registry dict objects on an explicit heap (`heap`, keyed by
allocation id) and the four attributes as references into it.  `_save`
pickles the tuple `(roles, appliances, vehicles, rotas)`; pickle
memoization preserves reference sharing inside one pickled graph, so the
saved file records the four references together with a snapshot of the
heap, and `_load` allocates one fresh dict per distinct saved reference.
Assets are identified by their registry key (`role`, `appliance` name,
`callsign`, `rota`), which the constructors set to the string argument;
station `name`/`fileName`/`rootDir` handling is elided. -/

inductive AssetKind : Type where
  | role
  | appliance
  | vehicle
  | rota
deriving DecidableEq

inductive Asset : Type where
  | role : String → Asset
  | appliance : String → Asset
  | vehicle : String → Asset
  | rota : String → Asset
deriving DecidableEq

abbrev AssetMap := List (String × Asset)

structure SavedStn where
  refs : Nat × Nat × Nat × Nat
  snapshot : List (Nat × AssetMap)
deriving DecidableEq

structure StationSt where
  next : Nat
  heap : List (Nat × AssetMap)
  rolesRef : Nat
  appliancesRef : Nat
  vehiclesRef : Nat
  rotasRef : Nat
  file : Option SavedStn
deriving DecidableEq

def stnHeapAt (s : StationSt) (r : Nat) : AssetMap :=
  (dictGet? s.heap r).getD []

def kindRef (s : StationSt) : AssetKind → Nat
  | .role => s.rolesRef
  | .appliance => s.appliancesRef
  | .vehicle => s.vehiclesRef
  | .rota => s.rotasRef

/-- Asset construction `Asset(arg1, **kwargs)` at line 746, for a string
`arg1`: each constructor stores the string as its identifier attribute
(`Role.role`, `Appliance.appliance`, `Vehicle.callsign`, `Rota.rota`).
The remaining kwargs are assumed valid, so construction succeeds. -/
def mkAsset : AssetKind → String → Asset
  | .role, n => .role n
  | .appliance, n => .appliance n
  | .vehicle, n => .vehicle n
  | .rota, n => .rota n

/-- The `Station.roles` property (lines 659-661). -/
def stationRoles (s : StationSt) : AssetMap := stnHeapAt s s.rolesRef

/-- The `Station.appliances` property (lines 663-665). -/
def stationAppliances (s : StationSt) : AssetMap := stnHeapAt s s.appliancesRef

/-- The `Station.vehicles` property (lines 667-669). -/
def stationVehicles (s : StationSt) : AssetMap := stnHeapAt s s.vehiclesRef

/-- The `Station.rotas` property (lines 671-673). -/
def stationRotas (s : StationSt) : AssetMap := stnHeapAt s s.rotasRef

/-- The `Station.data` property (lines 679-685):
`{**self.roles, **self.appliances, **self.vehicles, **self.rotas}`. -/
def stationData (s : StationSt) : AssetMap :=
  dictMerge (dictMerge (dictMerge (stationRoles s) (stationAppliances s))
    (stationVehicles s)) (stationRotas s)

/-- `Station._save` (lines 1039-1055): pickles
`(self.roles, self.appliances, self.vehicles, self.rotas)` as one unit. -/
def stationSave (s : StationSt) : StationSt :=
  { s with file := some ⟨(s.rolesRef, s.appliancesRef, s.vehiclesRef,
      s.rotasRef), s.heap⟩ }

/-- Unpickling allocates one fresh object per distinct object among the
four pickled references, preserving the reference equalities that held
when the tuple was pickled (pickle memoization). -/
def unpickle4 (a b c d n : Nat) : (Nat × Nat × Nat × Nat) × Nat :=
  let a' := n
  let n1 := n + 1
  let bp := if b = a then (a', n1) else (n1, n1 + 1)
  let b' := bp.1
  let n2 := bp.2
  let cp := if c = a then (a', n2) else if c = b then (b', n2) else (n2, n2 + 1)
  let c' := cp.1
  let n3 := cp.2
  let dp := if d = a then (a', n3) else if d = b then (b', n3)
            else if d = c then (c', n3) else (n3, n3 + 1)
  ((a', b', cp.1, dp.1), dp.2)

/-- `Station._load` (lines 1057-1068): creates the file via `_save` when it
does not exist, else
`self._roles, self._appliances, self._vehicles, self._rotas = data`,
where `data` is the unpickled four-tuple of dicts. -/
def stationLoad (s : StationSt) : StationSt :=
  match s.file with
  | none => stationSave s
  | some f =>
      let rs := unpickle4 f.refs.1 f.refs.2.1 f.refs.2.2.1 f.refs.2.2.2 s.next
      let cA := (dictGet? f.snapshot f.refs.1).getD []
      let cB := (dictGet? f.snapshot f.refs.2.1).getD []
      let cC := (dictGet? f.snapshot f.refs.2.2.1).getD []
      let cD := (dictGet? f.snapshot f.refs.2.2.2).getD []
      { next := rs.2,
        heap := dictSet (dictSet (dictSet (dictSet s.heap rs.1.1 cA)
          rs.1.2.1 cB) rs.1.2.2.1 cC) rs.1.2.2.2 cD,
        rolesRef := rs.1.1, appliancesRef := rs.1.2.1,
        vehiclesRef := rs.1.2.2.1, rotasRef := rs.1.2.2.2,
        file := s.file }

/-- `Station.__init__` (lines 643-657): binds all four registry attributes
to one freshly allocated empty dict, then `self._load()`. -/
def stationInit (file : Option SavedStn) : StationSt :=
  stationLoad ⟨1, [(0, [])], 0, 0, 0, 0, file⟩

/-- `Station._addAsset` (lines 700-758) for a string argument `arg1` (the
create-or-return-existing path; the existing-object and list branches at
lines 734-744 are not modelled).  `assetDict` is the registry dict OBJECT
captured at entry (lines 727-732); the membership tests at lines 737, 750
and 753 read that object, while the insertion at line 754 goes through the
CURRENT attribute (re-read after `self._load()` at line 747). -/
def addAssetStr (s : StationSt) (arg1 : String) (k : AssetKind) :
    Except PyErr (Asset × StationSt) :=
  let oldRef := kindRef s k
  if dictMem (stnHeapAt s oldRef) arg1 then
    .ok ((dictGet? (stnHeapAt s oldRef) arg1).getD (mkAsset k arg1), s)
  else
    let asset := mkAsset k arg1
    let s' := stationLoad s
    let identifier := arg1
    if dictMem (stationData s') identifier
        && !(dictMem (stnHeapAt s' oldRef) identifier) then
      .error .typeError
    else if !(dictMem (stnHeapAt s' oldRef) identifier) then
      let newRef := kindRef s' k
      let s'' := { s' with
        heap := dictSet s'.heap newRef
          (dictSet (stnHeapAt s' newRef) identifier asset) }
      .ok (asset, stationSave s'')
    else
      .ok ((dictGet? (stnHeapAt s' oldRef) identifier).getD asset, s')

/-- The registry-aliasing invariant: the four registry attributes are one
object, a saved file's four pickled references are one object, and live
references lie below the allocation frontier. -/
def StInv (s : StationSt) : Prop :=
  s.rolesRef = s.appliancesRef ∧ s.appliancesRef = s.vehiclesRef ∧
  s.vehiclesRef = s.rotasRef ∧ s.rolesRef < s.next ∧
  (match s.file with
   | none => True
   | some f => f.refs.1 = f.refs.2.1 ∧ f.refs.2.1 = f.refs.2.2.1 ∧
       f.refs.2.2.1 = f.refs.2.2.2)

/-- A Rota argument to `Station.personnel`: a Rota object (carrying its
`rota` identifier) or a bare identifier. -/
inductive RotaArg : Type where
  | obj : String → RotaArg
  | ident : String → RotaArg

/-- `Station.__call__` (lines 687-698): `self.data[arg]`, raising KeyError
when the key is absent. -/
def stationCall (s : StationSt) (arg : String) : Except PyErr Asset :=
  match dictGet? (stationData s) arg with
  | some a => .ok a
  | none => .error .keyError

/-- The rota-resolution prefix of `Station.personnel` (lines 890-907).
For a Rota object: `if rota.rota not in self.rotas: raise KeyError`, then
`rota = [self(rota.rota)]`.  For an integer identifier the membership test
is INVERTED in the source (line 897: `if rota in self.rotas: raise
KeyError(f"Rota {rota} is not in the Station")`), and the unregistered
case falls through to `self(rota)`, whose dict lookup raises the KeyError
instead. -/
def personnelResolve (s : StationSt) (arg : RotaArg) :
    Except PyErr (List Asset) :=
  match arg with
  | .obj r =>
      if dictMem (stationRotas s) r = false then .error .keyError
      else do
        let a ← stationCall s r
        .ok [a]
  | .ident r =>
      if dictMem (stationRotas s) r then .error .keyError
      else do
        let a ← stationCall s r
        .ok [a]

theorem dictSet_dictSet_same {α β : Type} [DecidableEq α]
    (m : List (α × β)) (k : α) (v w : β) :
    dictSet (dictSet m k v) k w = dictSet m k w := by
  induction m with
  | nil => simp [dictSet]
  | cons p rest ih =>
      obtain ⟨a, b⟩ := p
      by_cases h : a = k
      · simp [dictSet, h]
      · simp [dictSet, h, ih]

/-- Under equal saved references, `_load` allocates exactly one fresh dict
holding the saved contents and points all four attributes at it. -/
theorem stationLoad_spec (s : StationSt) (f : SavedStn) (hf : s.file = some f)
    (h1 : f.refs.1 = f.refs.2.1) (h2 : f.refs.2.1 = f.refs.2.2.1)
    (h3 : f.refs.2.2.1 = f.refs.2.2.2) :
    stationLoad s = { s with
                      next := s.next + 1,
                      heap := dictSet s.heap s.next
                        ((dictGet? f.snapshot f.refs.1).getD []),
                      rolesRef := s.next, appliancesRef := s.next,
                      vehiclesRef := s.next, rotasRef := s.next } := by
  simp only [stationLoad, hf, unpickle4, ← h1, ← h2, ← h3, if_pos rfl]
  simp [dictSet_dictSet_same]

theorem stInv_save (s : StationSt) (h : StInv s) : StInv (stationSave s) := by
  obtain ⟨e1, e2, e3, hlt, _⟩ := h
  exact ⟨e1, e2, e3, hlt, ⟨e1, e2, e3⟩⟩

theorem stInv_load (s : StationSt) (h : StInv s) : StInv (stationLoad s) := by
  obtain ⟨e1, e2, e3, hlt, hfile⟩ := h
  cases hh : s.file with
  | none =>
      have : stationLoad s = stationSave s := by simp [stationLoad, hh]
      rw [this]
      exact stInv_save s ⟨e1, e2, e3, hlt, by rw [hh] at hfile ⊢; exact hfile⟩
  | some f =>
      rw [hh] at hfile
      obtain ⟨g1, g2, g3⟩ := hfile
      rw [stationLoad_spec s f hh g1 g2 g3]
      exact ⟨rfl, rfl, rfl, by show s.next < s.next + 1; omega,
        by rw [hh]; exact ⟨g1, g2, g3⟩⟩

theorem stationLoad_frame (s : StationSt) (h : StInv s) (r : Nat)
    (hr : r < s.next) : stnHeapAt (stationLoad s) r = stnHeapAt s r := by
  obtain ⟨e1, e2, e3, hlt, hfile⟩ := h
  cases hh : s.file with
  | none =>
      have : stationLoad s = stationSave s := by simp [stationLoad, hh]
      rw [this]
      rfl
  | some f =>
      rw [hh] at hfile
      obtain ⟨g1, g2, g3⟩ := hfile
      rw [stationLoad_spec s f hh g1 g2 g3]
      have hne : ¬ s.next = r := by omega
      simp [stnHeapAt, dictGet?_dictSet, hne]

theorem stationLoad_next (s : StationSt) (h : StInv s) :
    s.next ≤ (stationLoad s).next ∧
      (stationLoad s).rolesRef < (stationLoad s).next := by
  obtain ⟨e1, e2, e3, hlt, hfile⟩ := h
  cases hh : s.file with
  | none =>
      have : stationLoad s = stationSave s := by simp [stationLoad, hh]
      rw [this]
      exact ⟨le_refl _, hlt⟩
  | some f =>
      rw [hh] at hfile
      obtain ⟨g1, g2, g3⟩ := hfile
      rw [stationLoad_spec s f hh g1 g2 g3]
      exact ⟨by show s.next ≤ s.next + 1; omega,
        by show s.next < s.next + 1; omega⟩

theorem kindRef_const (s : StationSt) (h : StInv s) (k : AssetKind) :
    kindRef s k = s.rolesRef := by
  obtain ⟨e1, e2, e3, _, _⟩ := h
  cases k <;> simp [kindRef, e1, e2, e3]

/-- Effect of a successful `_addAsset` string registration: the invariant
is preserved and the key is visible through all four registry accessors. -/
theorem addAssetStr_spec (s : StationSt) (arg : String) (k : AssetKind)
    (a : Asset) (s' : StationSt) (h : StInv s)
    (hok : addAssetStr s arg k = .ok (a, s')) :
    StInv s' ∧ (∀ k', dictMem (stnHeapAt s' (kindRef s' k')) arg = true) := by
  have hload := stInv_load s h
  simp only [addAssetStr] at hok
  split at hok
  · rename_i hmem
    simp only [Except.ok.injEq, Prod.mk.injEq] at hok
    obtain ⟨_, hs⟩ := hok
    subst hs
    refine ⟨h, ?_⟩
    intro k'
    rw [kindRef_const s h k']
    rw [kindRef_const s h k] at hmem
    exact hmem
  · split at hok
    · exact absurd hok (by simp)
    · split at hok
      · rename_i hmem1 hcond hnotin
        simp only [Except.ok.injEq, Prod.mk.injEq] at hok
        obtain ⟨_, hs⟩ := hok
        subst hs
        set sl := stationLoad s with hsl
        have hinv'' : StInv ({ sl with
            heap := dictSet sl.heap (kindRef sl k)
              (dictSet (stnHeapAt sl (kindRef sl k)) arg (mkAsset k arg)) }) := by
          obtain ⟨f1, f2, f3, f4, f5⟩ := hload
          exact ⟨f1, f2, f3, f4, f5⟩
        refine ⟨stInv_save _ hinv'', ?_⟩
        intro k'
        have hk' : kindRef (stationSave { sl with
            heap := dictSet sl.heap (kindRef sl k)
              (dictSet (stnHeapAt sl (kindRef sl k)) arg (mkAsset k arg)) }) k'
            = kindRef sl k := by
          rw [kindRef_const _ (stInv_save _ hinv'') k']
          rw [kindRef_const sl hload k]
          rfl
        rw [hk']
        show dictMem ((dictGet? (dictSet sl.heap (kindRef sl k)
          (dictSet (stnHeapAt sl (kindRef sl k)) arg (mkAsset k arg)))
            (kindRef sl k)).getD []) arg = true
        rw [dictGet?_dictSet]
        simp [dictMem, dictGet?_dictSet]
      · rename_i hmem1 hcond hnotin
        simp only [Bool.not_eq_true', Bool.not_eq_false] at hnotin
        have hold : kindRef s k < s.next := by
          rw [kindRef_const s h k]
          exact h.2.2.2.1
        rw [stationLoad_frame s h (kindRef s k) hold] at hnotin
        rw [hnotin] at hmem1
        exact absurd rfl hmem1

/-- C10: in a Station constructed without a pre-existing save file the four
registry attributes are one shared dict object, so the four accessors
return the same mapping; registering an asset of any one kind makes its
entry visible through all four accessors; and the sharing (including in
the pickled file) is preserved by every `_save`/`_load` cycle and every
registration. -/
theorem station_registries_aliased :
    StInv (stationInit none) ∧
    (∀ s, StInv s →
      (s.rolesRef = s.appliancesRef ∧ s.appliancesRef = s.vehiclesRef ∧
        s.vehiclesRef = s.rotasRef) ∧
      (stationRoles s = stationAppliances s ∧
        stationAppliances s = stationVehicles s ∧
        stationVehicles s = stationRotas s) ∧
      StInv (stationSave s) ∧ StInv (stationLoad s) ∧
      (∀ arg k a s', addAssetStr s arg k = .ok (a, s') →
        StInv s' ∧
          ∀ k', dictMem (stnHeapAt s' (kindRef s' k')) arg = true)) := by
  constructor
  · show StInv (stationSave ⟨1, [(0, [])], 0, 0, 0, 0, none⟩)
    exact ⟨rfl, rfl, rfl, by show (0 : Nat) < 1; omega, ⟨rfl, rfl, rfl⟩⟩
  · intro s hs
    obtain ⟨e1, e2, e3, hlt, hfile⟩ := hs
    refine ⟨⟨e1, e2, e3⟩, ?_, stInv_save s ⟨e1, e2, e3, hlt, hfile⟩,
      stInv_load s ⟨e1, e2, e3, hlt, hfile⟩, ?_⟩
    · unfold stationRoles stationAppliances stationVehicles stationRotas
      rw [e1, e2, e3]
      exact ⟨rfl, rfl, rfl⟩
    · intro arg k a s' hok
      exact addAssetStr_spec s arg k a s' ⟨e1, e2, e3, hlt, hfile⟩ hok

/-- Witness for `station_registries_aliased`: the fresh Station's roles and
rotas accessors agree, and registering a vehicle is visible as a role. -/
theorem station_registries_aliased_witness :
    stationRoles (stationInit none) = stationAppliances (stationInit none) ∧
    stationVehicles (stationInit none) = stationRotas (stationInit none) :=
  ⟨(station_registries_aliased.2 (stationInit none)
      station_registries_aliased.1).2.1.1,
   (station_registries_aliased.2 (stationInit none)
      station_registries_aliased.1).2.1.2.2⟩

def s1C1 : StationSt :=
  ⟨2, [(0, []), (1, [("X1", Asset.vehicle "X1")])], 1, 1, 1, 1,
   some ⟨(1, 1, 1, 1), [(0, []), (1, [("X1", Asset.vehicle "X1")])]⟩⟩

/-- C1: registering a Vehicle "X1" and then asking the Station to register
a Role named "X1" does NOT raise the intended cross-kind TypeError — since
all four registries are one aliased dict, the lookup at line 737 finds the
key and returns the existing VEHICLE as the result of the role
registration; the cross-kind check at lines 750-751 is unreachable.
Same-kind re-registration returns the existing Vehicle unchanged. -/
theorem station_cross_kind_no_typeerror :
    addAssetStr (stationInit none) "X1" .vehicle
        = .ok (Asset.vehicle "X1", s1C1) ∧
    addAssetStr s1C1 "X1" .role = .ok (Asset.vehicle "X1", s1C1) ∧
    addAssetStr s1C1 "X1" .vehicle = .ok (Asset.vehicle "X1", s1C1) :=
  ⟨rfl, rfl, rfl⟩

def sRC7 : StationSt :=
  ⟨2, [(0, []), (1, [("r1", Asset.rota "r1")])], 1, 1, 1, 1,
   some ⟨(1, 1, 1, 1), [(0, []), (1, [("r1", Asset.rota "r1")])]⟩⟩

/-- C7: with Rota "r1" registered, resolving it by bare identifier raises
KeyError precisely BECAUSE it is registered (the membership test at line
897 is inverted); an unregistered identifier also raises KeyError, but
only via the fall-through dict lookup; resolution by Rota object behaves
as specified. -/
theorem station_personnel_inverted_membership :
    addAssetStr (stationInit none) "r1" .rota = .ok (Asset.rota "r1", sRC7) ∧
    personnelResolve sRC7 (.ident "r1") = .error PyErr.keyError ∧
    personnelResolve sRC7 (.obj "r1") = .ok [Asset.rota "r1"] ∧
    personnelResolve sRC7 (.ident "zz") = .error PyErr.keyError ∧
    personnelResolve sRC7 (.obj "zz") = .error PyErr.keyError :=
  ⟨rfl, rfl, rfl, rfl, rfl⟩

/-- C8: a Role's effective constraints are the inherited parent's effective
constraints overlaid by the role's own declared constraints — own
constraints win on every key collision, inherited entries fill gaps only;
in the chain A (no constraints) → B (inherits A, X:true) → C (inherits B,
Y:false), C's effective constraints contain X:true and Y:false, and
overriding X to false at C makes C's effective X false while B's stays
true. -/
theorem role_constraints_inheritance :
    (∀ (n : String) (own : List (Nat × Bool)) (p : RoleT) (k : Nat),
        DictWF own →
        dictGet? (RoleT.inh n own p).constraints k =
          firstSome (dictGet? own k) (dictGet? p.constraints k)) ∧
    (let A := RoleT.base "A" []
     let B := RoleT.inh "B" [(0, true)] A
     let C := RoleT.inh "C" [(1, false)] B
     dictGet? C.constraints 0 = some true ∧
     dictGet? C.constraints 1 = some false ∧
     dictGet? ((C.setConstraint 0 false).constraints) 0 = some false ∧
     dictGet? B.constraints 0 = some true) := by
  constructor
  · intro n own p k hwf
    simpa [RoleT.constraints] using dictGet?_dictMerge p.constraints own hwf k
  · refine ⟨by decide, by decide, by decide, by decide⟩

/-- Witness for `role_constraints_inheritance`: the overlay law applied at
a concrete inheriting role, with the well-formedness hypothesis discharged
by evaluation. -/
theorem role_constraints_inheritance_witness :
    dictGet? (RoleT.inh "B" [(0, true)] (RoleT.base "A" [(0, false), (1, true)])).constraints 0
        = some true ∧
    dictGet? (RoleT.inh "B" [(0, true)] (RoleT.base "A" [(0, false), (1, true)])).constraints 1
        = some true := by
  have h0 := role_constraints_inheritance.1 "B" [(0, true)]
    (RoleT.base "A" [(0, false), (1, true)]) 0 (by unfold DictWF; decide)
  have h1 := role_constraints_inheritance.1 "B" [(0, true)]
    (RoleT.base "A" [(0, false), (1, true)]) 1 (by unfold DictWF; decide)
  refine ⟨?_, ?_⟩
  · rw [h0]; decide
  · rw [h1]; decide

/-- C9 counterexample: the id is only a 7-hex-character slice of the SHA-1
digest, so it is not injective in the name — the distinct names "N17841"
and "N25410" with role "FF" produce the same id, refuting "changing the
name changes the id" as a universal statement. -/
theorem personnel_id_collision :
    Pers.pid ⟨"N17841", "FF"⟩ = Pers.pid ⟨"N25410", "FF"⟩ ∧
      ("N17841" : String) ≠ "N25410" := by
  constructor
  · decide
  · decide

/-- C9 (amended): the id is a deterministic, pure function of the current
name and role name — identical name and role give identical ids, renaming
recomputes the id from the new name — and changing the name or the role
name generally (but not universally) changes the id, as the concrete
generic instances show. -/
theorem personnel_id_deterministic :
    (∀ p q : Pers, p.name = q.name → p.roleName = q.roleName → p.pid = q.pid) ∧
    (∀ (p : Pers) (n : String),
        (p.rename n).pid = Pers.pid ⟨n, p.roleName⟩) ∧
    Pers.pid ⟨"Alice", "FF"⟩ ≠ Pers.pid ⟨"Bob", "FF"⟩ ∧
    Pers.pid ⟨"Alice", "FF"⟩ ≠ Pers.pid ⟨"Alice", "PO"⟩ := by
  refine ⟨?_, ?_, ?_, ?_⟩
  · rintro ⟨n1, r1⟩ ⟨n2, r2⟩ h1 h2
    simp only at h1 h2
    subst h1; subst h2; rfl
  · intro p n; rfl
  · decide
  · decide

/-- Witness for `personnel_id_deterministic`: the determinism clause applied
to two concretely equal Personnel. -/
theorem personnel_id_deterministic_witness :
    Pers.pid ⟨"Alice", "FF"⟩ = Pers.pid ⟨"Alice", "FF"⟩ :=
  personnel_id_deterministic.1 ⟨"Alice", "FF"⟩ ⟨"Alice", "FF"⟩ rfl rfl

end RTT

